import Mathlib

/-!
Verification development for the DatapackHelper Electron shell.

The repository's main process registers a privileged `app://` scheme, maps
`app://` requests to files under the packaged `dist` directory, intercepts
window-open attempts, and exposes a single `datapackHelper` global through the
context bridge.  This file is a shallow embedding of that logic:

* `NodePath` models Node's `path.posix` functions `normalize`, `join` and
  `extname` (the platform used by the main process on posix systems), with
  strings viewed through their `List Char` data.
* `decodeURIComponent` models the ECMAScript `decodeURIComponent` built-in,
  returning `none` where the built-in throws `URIError` (malformed percent
  escapes or invalid UTF-8 octet sequences).
* `URLRecord` models the WHATWG `URL` object as seen by the protocol handler
  (the handler reads only its `pathname`).
* `resolveCore` / `appProtocolResolve` embed the callback registered by
  `registerAppProtocol` in the main process.
* `windowOpenHandler` embeds the `setWindowOpenHandler` callback; the list of
  `shell.openExternal` calls it makes is recorded explicitly.
* `startupEvents` embeds the straight-line startup behaviour of the main
  process as an event trace: module evaluation registers the scheme
  privileges, then the ready promise resolves, the resolver is registered in
  packaged mode only, and the window is created and loaded.
* `rendererGlobals` embeds the preload script's context-bridge exposure.
-/

namespace NodePath

/-- Split a character list on `'/'`; mirrors how Node's `normalizeString`
walks a posix path, segment by segment.  Always returns at least one
(possibly empty) segment. -/
def splitSlash : List Char → List (List Char)
  | [] => [[]]
  | c :: rest =>
    if c = '/' then [] :: splitSlash rest
    else
      match splitSlash rest with
      | [] => [[c]]
      | s :: ss => (c :: s) :: ss

/-- Join segments with `'/'` separators (the inverse of `splitSlash`);
mirrors how Node's `normalizeString` accumulates its result string. -/
def joinSegs : List (List Char) → List Char
  | [] => []
  | [s] => s
  | s :: ss => s ++ '/' :: joinSegs ss

/-- One step of Node's `normalizeString`: skip empty and `.` segments, pop on
`..` when a poppable segment is present, otherwise keep `..` only when
`allowAboveRoot` holds (relative paths).  The accumulator is kept reversed. -/
def addSeg (allowAboveRoot : Bool) (acc : List (List Char)) (seg : List Char) :
    List (List Char) :=
  if seg = [] ∨ seg = ['.'] then acc
  else if seg = ['.', '.'] then
    match acc with
    | [] => if allowAboveRoot then [seg] else []
    | l :: rest => if l = ['.', '.'] then (if allowAboveRoot then seg :: l :: rest else l :: rest) else rest
  else seg :: acc

/-- Node's `normalizeString` on the segment level. -/
def normSegs (allowAboveRoot : Bool) (segs : List (List Char)) : List (List Char) :=
  (segs.foldl (addSeg allowAboveRoot) []).reverse

/-- Node's `path.posix.normalize` on character lists. -/
def normalizeChars (p : List Char) : List Char :=
  if p = [] then ['.']
  else
    let isAbs : Bool := decide (p.head? = some '/')
    let trailing : Bool := decide (p.getLast? = some '/')
    let body := joinSegs (normSegs (!isAbs) (splitSlash p))
    if body = [] then
      if isAbs then ['/'] else if trailing then ['.', '/'] else ['.']
    else
      let body2 := if trailing then body ++ ['/'] else body
      if isAbs then '/' :: body2 else body2

/-- Node's `path.posix.normalize`. -/
def normalize (p : String) : String := ⟨normalizeChars p.data⟩

/-- Node's `path.posix.join`: drop empty arguments, join the rest with `'/'`
and normalize; `"."` when nothing remains. -/
def join (parts : List String) : String :=
  match parts.filter (fun s => s ≠ "") with
  | [] => "."
  | ne => normalize ⟨joinSegs (ne.map String.data)⟩

/-- The component Node's `path.posix.extname` inspects: the text after the
last `'/'` once trailing slashes are ignored. -/
def lastComp (p : List Char) : List Char :=
  match ((splitSlash p).reverse.dropWhile (fun s => s = [])) with
  | [] => []
  | b :: _ => b

/-- Index of the last `'.'` in a character list, if any. -/
def lastDotIdx : List Char → Option Nat
  | [] => none
  | c :: rest =>
    match lastDotIdx rest with
    | some i => some (i + 1)
    | none => if c = '.' then some 0 else none

/-- Node's `path.posix.extname` on character lists: everything from the last
dot of the final component, except when that dot is the component's first
character or the component is exactly `".."`. -/
def extnameChars (p : List Char) : List Char :=
  let b := lastComp p
  match lastDotIdx b with
  | none => []
  | some i =>
    if i = 0 then []
    else if b = ['.', '.'] then []
    else b.drop i

/-- Node's `path.posix.extname`. -/
def extname (p : String) : String := ⟨extnameChars p.data⟩

end NodePath

/-- Value of a hexadecimal digit character, as used by `decodeURIComponent`. -/
def hexDigit (c : Char) : Option Nat :=
  if 48 ≤ c.toNat ∧ c.toNat ≤ 57 then some (c.toNat - 48)
  else if 65 ≤ c.toNat ∧ c.toNat ≤ 70 then some (c.toNat - 65 + 10)
  else if 97 ≤ c.toNat ∧ c.toNat ≤ 102 then some (c.toNat - 97 + 10)
  else none

/-- A unit produced by the first phase of ECMAScript `Decode`: either a
character copied verbatim or the octet of a `%XY` escape. -/
inductive DecUnit where
  | raw (c : Char)
  | byte (b : Nat)
deriving DecidableEq

/-- First phase of ECMAScript `Decode`: turn every `%XY` escape into its
octet; `none` models the `URIError` thrown on a `%` not followed by two hex
digits. -/
def scanPercent : List Char → Option (List DecUnit)
  | [] => some []
  | '%' :: h1 :: h2 :: rest =>
    match hexDigit h1, hexDigit h2 with
    | some a, some b => (scanPercent rest).map (fun us => DecUnit.byte (16 * a + b) :: us)
    | _, _ => none
  | ['%'] => none
  | ['%', _] => none
  | c :: rest => (scanPercent rest).map (fun us => DecUnit.raw c :: us)

/-- A continuation octet of a UTF-8 sequence (`0x80`–`0xBF`), which
ECMAScript `Decode` additionally requires to come from a `%XY` escape. -/
def contByte (u : DecUnit) : Option Nat :=
  match u with
  | DecUnit.byte b => if 128 ≤ b ∧ b ≤ 191 then some b else none
  | DecUnit.raw _ => none

/-- Second phase of ECMAScript `Decode`: octets with the high bit set must
form a valid (shortest-form, non-surrogate) UTF-8 encoding of a code point;
`none` models the `URIError` thrown otherwise. -/
def assembleUnits : List DecUnit → Option (List Char)
  | [] => some []
  | DecUnit.raw c :: rest => (assembleUnits rest).map (fun cs => c :: cs)
  | DecUnit.byte b :: rest =>
    if b < 128 then (assembleUnits rest).map (fun cs => Char.ofNat b :: cs)
    else if 194 ≤ b ∧ b ≤ 223 then
      match rest with
      | [] => none
      | u2 :: rest2 =>
        match contByte u2 with
        | none => none
        | some b2 =>
          (assembleUnits rest2).map (fun cs => Char.ofNat ((b - 192) * 64 + (b2 - 128)) :: cs)
    else if 224 ≤ b ∧ b ≤ 239 then
      match rest with
      | u2 :: u3 :: rest3 =>
        match contByte u2, contByte u3 with
        | some b2, some b3 =>
          if (b = 224 ∧ 160 ≤ b2) ∨ (225 ≤ b ∧ b ≤ 236) ∨ (b = 237 ∧ b2 ≤ 159) ∨ 238 ≤ b then
            (assembleUnits rest3).map
              (fun cs => Char.ofNat ((b - 224) * 4096 + (b2 - 128) * 64 + (b3 - 128)) :: cs)
          else none
        | _, _ => none
      | _ => none
    else if 240 ≤ b ∧ b ≤ 244 then
      match rest with
      | u2 :: u3 :: u4 :: rest4 =>
        match contByte u2, contByte u3, contByte u4 with
        | some b2, some b3, some b4 =>
          if (b = 240 ∧ 144 ≤ b2) ∨ (241 ≤ b ∧ b ≤ 243) ∨ (b = 244 ∧ b2 ≤ 143) then
            (assembleUnits rest4).map
              (fun cs =>
                Char.ofNat
                  ((b - 240) * 262144 + (b2 - 128) * 4096 + (b3 - 128) * 64 + (b4 - 128)) :: cs)
          else none
        | _, _, _ => none
      | _ => none
    else none

/-- ECMAScript `decodeURIComponent`; `none` models a thrown `URIError`. -/
def decodeURIComponent (s : String) : Option String :=
  (scanPercent s.data).bind (fun us => (assembleUnits us).map (fun cs => ⟨cs⟩))

/-- The main process's `pathname.replace` of the anchored pattern matching
one or more leading slashes with the empty string. -/
def stripLeadingSlashes (s : String) : String := ⟨s.data.dropWhile (fun c => c = '/')⟩

/-- The WHATWG `URL` object produced by `new URL(request.url)`, restricted to
the components the main process could observe.  The protocol handler reads
only `pathname`. -/
structure URLRecord where
  protocol : String
  host : String
  pathname : String
  search : String
  hash : String

/-- The file-path computation of the `registerFileProtocol` callback after
`decodeURIComponent` has succeeded: strip leading slashes, serve
`index.html` for the empty path, append `index.html` to extensionless
routes, and serve everything else verbatim through `path.join`. -/
def resolveCore (distPath : String) (pathname : String) : String :=
  let relativePath := stripLeadingSlashes pathname
  if relativePath = "" then NodePath.join [distPath, "index.html"]
  else if NodePath.extname relativePath = "" then
    NodePath.join [distPath, relativePath, "index.html"]
  else NodePath.join [distPath, relativePath]

/-- The full `registerFileProtocol` callback: `some path` is the value passed
to `callback`; `none` means `decodeURIComponent` threw and the callback was
never invoked. -/
def appProtocolResolve (distPath : String) (request : URLRecord) : Option String :=
  (decodeURIComponent request.pathname).map (resolveCore distPath)

/-- Containment of a resolved path in the distribution root, the property the
specification demands of the resolver (spec wording: the resolved path
"stays within distRoot"). -/
def withinRoot (root p : String) : Bool :=
  decide (p = root) || (root ++ "/").data.isPrefixOf p.data

/-- JavaScript's `String.prototype.startsWith`. -/
def jsStartsWith (s pre : String) : Bool := pre.data.isPrefixOf s.data

/-- Decision of the `setWindowOpenHandler` callback. -/
inductive WindowOpenAction where
  | allow
  | deny
deriving DecidableEq

/-- Observable behaviour of one invocation of the window-open handler: the
URLs passed to `shell.openExternal`, in order, and the returned action. -/
structure WindowOpenResult where
  externalOpens : List String
  action : WindowOpenAction
deriving DecidableEq

/-- The `setWindowOpenHandler` callback of the main process: forward the URL
to `shell.openExternal` when it starts with the string `"http"`, and always
deny the in-app window. -/
def windowOpenHandler (url : String) : WindowOpenResult :=
  { externalOpens := if jsStartsWith url "http" then [url] else []
    action := WindowOpenAction.deny }

/-- Spec-side definition, following the specification's words: a URL whose
scheme is `http` or `https`. -/
def isHttpOrHttpsUrl (url : String) : Bool :=
  jsStartsWith url "http://" || jsStartsWith url "https://"

/-- The privilege record passed to `protocol.registerSchemesAsPrivileged`. -/
structure SchemePrivileges where
  standard : Bool
  secure : Bool
  supportFetchAPI : Bool
  corsEnabled : Bool
deriving DecidableEq

/-- The privileges requested for the `app` scheme in the main process. -/
def appSchemePrivileges : SchemePrivileges :=
  { standard := true, secure := true, supportFetchAPI := true, corsEnabled := true }

/-- Events of the main process's startup sequence. -/
inductive MainEvent where
  | registerSchemes (scheme : String) (priv : SchemePrivileges)
  | ready
  | registerResolver (scheme : String)
  | createWindow
  | loadURL (url : String)
  | openDevTools (mode : String)
deriving DecidableEq

/-- Events of `createWindow`: the window is created, then in development mode
the dev-server URL (the `VITE_DEV_SERVER_URL` override or the
`http://localhost:3000` fallback) is loaded and detached devtools are opened,
while in packaged mode `app://./index.html` is loaded. -/
def createWindowEvents (isDev : Bool) (viteDevServerUrl : Option String) : List MainEvent :=
  [MainEvent.createWindow] ++
    (if isDev then
      [MainEvent.loadURL (viteDevServerUrl.getD "http://localhost:3000"),
        MainEvent.openDevTools "detach"]
    else
      [MainEvent.loadURL "app://./index.html"])

/-- The main process's startup trace: module evaluation calls
`registerSchemesAsPrivileged` unconditionally, then `app.whenReady` resolves,
`registerAppProtocol` runs only when not in development mode, and
`createWindow` runs.  `isDev` is the negation of `app.isPackaged`. -/
def startupEvents (isDev : Bool) (viteDevServerUrl : Option String) : List MainEvent :=
  [MainEvent.registerSchemes "app" appSchemePrivileges, MainEvent.ready] ++
    (if !isDev then [MainEvent.registerResolver "app"] else []) ++
    createWindowEvents isDev viteDevServerUrl

/-- Event `a` occurs in `tr` and every occurrence of `a` precedes every
occurrence of `b`. -/
def OccursBefore (tr : List MainEvent) (a b : MainEvent) : Prop :=
  ∃ l r, tr = l ++ r ∧ a ∈ l ∧ a ∉ r ∧ b ∈ r ∧ b ∉ l

/-- Values that can appear in the object handed to
`contextBridge.exposeInMainWorld`.  The constructors distinguish booleans,
strings and functions so that "no method" is expressible. -/
inductive BridgeValue where
  | boolVal (b : Bool)
  | strVal (s : String)
  | funcVal (id : Nat)
deriving DecidableEq

/-- The object literal the preload script exposes (both preload copies in the
repository expose the same object). -/
def datapackHelperApi : List (String × BridgeValue) :=
  [("isElectron", BridgeValue.boolVal true)]

/-- The globals injected by the preload script into a renderer context; the
preload script is static, so every context `ctx` receives the same single
exposure. -/
def rendererGlobals (ctx : Nat) : List (String × List (String × BridgeValue)) :=
  [("datapackHelper", datapackHelperApi)]

/-- Segment admissible in a path that `normalize` leaves untouched: nonempty
and neither `"."` nor `".."`. -/
def goodSeg (s : List Char) : Bool :=
  decide (s ≠ [] ∧ s ≠ ['.'] ∧ s ≠ ['.', '.'])

/-- A relative path in normal form: every slash-separated segment is plain
(no empty segment, no `.`, no `..`); this rules out leading, trailing and
repeated slashes. -/
def normalRel (p : String) : Bool := (NodePath.splitSlash p.data).all goodSeg

/-- An absolute path in normal form: a leading slash followed by at least one
plain segment and no trailing slash.  The packaged `distPath`, being
`path.join` of an absolute directory with `"../dist"`, always has this
shape. -/
def normalAbs (d : String) : Bool :=
  match NodePath.splitSlash d.data with
  | [] :: s :: rest => (s :: rest).all goodSeg
  | _ => false

namespace NodePath

theorem splitSlash_ne_nil (cs : List Char) : splitSlash cs ≠ [] := by
  cases cs with
  | nil => simp [splitSlash]
  | cons c rest =>
    simp only [splitSlash]
    split
    · simp
    · split <;> simp

theorem splitSlash_cons_slash (rest : List Char) :
    splitSlash ('/' :: rest) = [] :: splitSlash rest := by
  simp [splitSlash]

theorem splitSlash_cons_ne (c : Char) (rest : List Char) (h : ¬ c = '/')
    (s : List Char) (ss : List (List Char)) (hs : splitSlash rest = s :: ss) :
    splitSlash (c :: rest) = (c :: s) :: ss := by
  simp only [splitSlash, if_neg h, hs]

theorem splitSlash_cons_shape (cs : List Char) :
    ∃ s ss, splitSlash cs = s :: ss := by
  cases h : splitSlash cs with
  | nil => exact absurd h (splitSlash_ne_nil cs)
  | cons a b => exact ⟨a, b, rfl⟩

theorem splitSlash_append (xs ys : List Char) :
    splitSlash (xs ++ '/' :: ys) = splitSlash xs ++ splitSlash ys := by
  induction xs with
  | nil => simp [splitSlash]
  | cons c xs ih =>
    by_cases hc : c = '/'
    · subst hc
      rw [List.cons_append, splitSlash_cons_slash, splitSlash_cons_slash, ih,
        List.cons_append]
    · obtain ⟨s, ss, hs⟩ := splitSlash_cons_shape xs
      have h2 : splitSlash (xs ++ '/' :: ys) = s :: (ss ++ splitSlash ys) := by
        rw [ih, hs, List.cons_append]
      rw [List.cons_append, splitSlash_cons_ne c _ hc _ _ h2,
        splitSlash_cons_ne c _ hc _ _ hs, List.cons_append]

theorem joinSegs_splitSlash (cs : List Char) : joinSegs (splitSlash cs) = cs := by
  induction cs with
  | nil => rfl
  | cons c rest ih =>
    obtain ⟨s, ss, hs⟩ := splitSlash_cons_shape rest
    by_cases hc : c = '/'
    · subst hc
      rw [splitSlash_cons_slash, hs]
      show '/' :: joinSegs (s :: ss) = '/' :: rest
      rw [← hs, ih]
    · rw [splitSlash_cons_ne c rest hc s ss hs]
      cases ss with
      | nil =>
        have hrest : s = rest := by rw [hs] at ih; exact ih
        show c :: s = c :: rest
        rw [hrest]
      | cons t ts =>
        show (c :: s) ++ '/' :: joinSegs (t :: ts) = c :: rest
        rw [hs] at ih
        have : s ++ '/' :: joinSegs (t :: ts) = rest := ih
        rw [List.cons_append, this]

theorem splitSlash_no_slash (cs : List Char) : ∀ s ∈ splitSlash cs, '/' ∉ s := by
  induction cs with
  | nil =>
    intro s hs
    simp [splitSlash] at hs
    subst hs; simp
  | cons c rest ih =>
    obtain ⟨t, ts, hts⟩ := splitSlash_cons_shape rest
    by_cases hc : c = '/'
    · subst hc
      rw [splitSlash_cons_slash]
      intro s hs
      rcases List.mem_cons.mp hs with h | h
      · subst h; simp
      · exact ih s h
    · rw [splitSlash_cons_ne c rest hc t ts hts]
      intro s hs
      rcases List.mem_cons.mp hs with h | h
      · subst h
        intro hmem
        rcases List.mem_cons.mp hmem with h1 | h1
        · exact hc h1.symm
        · exact ih t (by rw [hts]; exact List.mem_cons_self _ _) h1
      · exact ih s (by rw [hts]; exact List.mem_cons_of_mem _ h)

theorem addSeg_good (a : Bool) (acc : List (List Char)) (s : List Char)
    (hs : goodSeg s = true) : addSeg a acc s = s :: acc := by
  simp only [goodSeg, decide_eq_true_eq] at hs
  unfold addSeg
  rw [if_neg (by tauto), if_neg hs.2.2]

theorem foldl_addSeg_good (a : Bool) (segs : List (List Char)) :
    ∀ acc, (∀ s ∈ segs, goodSeg s = true) →
      List.foldl (addSeg a) acc segs = segs.reverse ++ acc := by
  induction segs with
  | nil => intro acc _; simp
  | cons s ss ih =>
    intro acc hg
    rw [List.foldl_cons, addSeg_good a acc s (hg s (List.mem_cons_self _ _)),
      ih _ (fun x hx => hg x (List.mem_cons_of_mem _ hx))]
    simp

theorem joinSegs_ne_nil (s : List Char) (ss : List (List Char)) (h : s ≠ []) :
    joinSegs (s :: ss) ≠ [] := by
  cases ss with
  | nil => simpa [joinSegs] using h
  | cons t ts => simp [joinSegs]

theorem joinSegs_getLast (segs : List (List Char)) (l : List Char)
    (hl : segs.getLast? = some l) (hne : l ≠ []) :
    (joinSegs segs).getLast? = l.getLast? := by
  induction segs with
  | nil => simp at hl
  | cons s ss ih =>
    cases ss with
    | nil =>
      simp only [List.getLast?_singleton, Option.some.injEq] at hl
      subst hl
      simp [joinSegs]
    | cons t ts =>
      rw [List.getLast?_cons_cons] at hl
      have hjs := ih hl
      have hlne : l.getLast? ≠ none := by
        intro h0
        exact hne (List.getLast?_eq_none_iff.mp h0)
      have hne2 : joinSegs (t :: ts) ≠ [] := by
        intro h0
        rw [h0] at hjs
        exact hlne hjs.symm
      show (s ++ '/' :: joinSegs (t :: ts)).getLast? = l.getLast?
      rw [List.getLast?_append]
      cases h : joinSegs (t :: ts) with
      | nil => exact absurd h hne2
      | cons a as =>
        rw [List.getLast?_cons_cons, ← h, hjs]
        have : l.getLast?.isSome := Option.ne_none_iff_isSome.mp hlne
        cases hv : l.getLast? with
        | none => exact absurd hv hlne
        | some v => rfl

end NodePath

namespace NodePath

theorem normalizeChars_eq_self (cs : List Char) (segs : List (List Char))
    (h : splitSlash cs = [] :: segs) (hne : segs ≠ [])
    (hg : ∀ s ∈ segs, goodSeg s = true) :
    normalizeChars cs = cs := by
  obtain ⟨s0, segs', rfl⟩ : ∃ s0 segs', segs = s0 :: segs' := by
    cases segs with
    | nil => exact absurd rfl hne
    | cons a b => exact ⟨a, b, rfl⟩
  have hs0 : goodSeg s0 = true := hg s0 (List.mem_cons_self _ _)
  have hs0ne : s0 ≠ [] := by
    simp only [goodSeg, decide_eq_true_eq] at hs0
    exact hs0.1
  have hcs : cs = '/' :: joinSegs (s0 :: segs') := by
    have h1 := joinSegs_splitSlash cs
    rw [h] at h1
    exact h1.symm
  have hjne : joinSegs (s0 :: segs') ≠ [] := joinSegs_ne_nil s0 segs' hs0ne
  have hcsne : cs ≠ [] := by rw [hcs]; simp
  have hhead : cs.head? = some '/' := by rw [hcs]; rfl
  -- facts about the final character
  have hlne : (s0 :: segs') ≠ ([] : List (List Char)) := by simp
  set l := (s0 :: segs').getLast hlne with hldef
  have hlget : (s0 :: segs').getLast? = some l := List.getLast?_eq_getLast _ hlne
  have hlmem : l ∈ s0 :: segs' := List.getLast_mem hlne
  have hlgood : goodSeg l = true := hg l hlmem
  have hlnil : l ≠ [] := by
    simp only [goodSeg, decide_eq_true_eq] at hlgood
    exact hlgood.1
  have hlslash : '/' ∉ l :=
    splitSlash_no_slash cs l (by rw [h]; exact List.mem_cons_of_mem _ hlmem)
  have hjl : (joinSegs (s0 :: segs')).getLast? = l.getLast? :=
    joinSegs_getLast _ l hlget hlnil
  have hlast : ¬ (cs.getLast? = some '/') := by
    rw [hcs]
    cases hv : joinSegs (s0 :: segs') with
    | nil => exact absurd hv hjne
    | cons a as =>
      rw [List.getLast?_cons_cons, ← hv, hjl]
      intro hx
      have hc : l.getLast hlnil = '/' := by
        have h2 := List.getLast?_eq_getLast l hlnil
        rw [h2] at hx
        exact Option.some.inj hx
      exact hlslash (hc ▸ List.getLast_mem hlnil)
  have hA : decide (cs.head? = some '/') = true := by rw [hhead]; rfl
  have hT : decide (cs.getLast? = some '/') = false := decide_eq_false hlast
  have hns : normSegs false (splitSlash cs) = s0 :: segs' := by
    rw [h]
    unfold normSegs
    have hstep : List.foldl (addSeg false) [] ([] :: s0 :: segs') =
        List.foldl (addSeg false) [] (s0 :: segs') := rfl
    rw [hstep, foldl_addSeg_good false (s0 :: segs') [] hg]
    simp
  simp only [normalizeChars, if_neg hcsne, hA, hT, Bool.not_true, hns]
  rw [if_neg hjne]
  simp [← hcs]

end NodePath

theorem normalAbs_shape (d : String) (hd : normalAbs d = true) :
    ∃ s rest, NodePath.splitSlash d.data = [] :: s :: rest ∧
      (∀ x ∈ s :: rest, goodSeg x = true) := by
  unfold normalAbs at hd
  split at hd
  · rename_i s rest heq
    exact ⟨s, rest, heq, by simpa [List.all_eq_true] using hd⟩
  · exact absurd hd (by simp)

theorem normalAbs_ne_empty (d : String) (hd : normalAbs d = true) : d ≠ "" := by
  intro h0
  rw [h0] at hd
  exact absurd hd (by decide)

theorem normalRel_ne_empty (p : String) (hp : normalRel p = true) : p ≠ "" := by
  intro h0
  rw [h0] at hp
  exact absurd hp (by decide)

theorem normalRel_good (p : String) (hp : normalRel p = true) :
    ∀ x ∈ NodePath.splitSlash p.data, goodSeg x = true := by
  simpa [normalRel, List.all_eq_true] using hp

theorem join_two (d p : String) (hd : normalAbs d = true) (hp : normalRel p = true) :
    NodePath.join [d, p] = d ++ "/" ++ p := by
  obtain ⟨s, rest, hsp, hgd⟩ := normalAbs_shape d hd
  have hdne : d ≠ "" := normalAbs_ne_empty d hd
  have hpne : p ≠ "" := normalRel_ne_empty p hp
  have hfil : [d, p].filter (fun s => s ≠ "") = [d, p] := by
    simp [List.filter, hdne, hpne]
  unfold NodePath.join
  rw [hfil]
  show NodePath.normalize ⟨d.data ++ '/' :: p.data⟩ = d ++ "/" ++ p
  have hsplit : NodePath.splitSlash (d.data ++ '/' :: p.data) =
      [] :: ((s :: rest) ++ NodePath.splitSlash p.data) := by
    rw [NodePath.splitSlash_append, hsp, List.cons_append]
  have hgood : ∀ x ∈ (s :: rest) ++ NodePath.splitSlash p.data, goodSeg x = true := by
    intro x hx
    rcases List.mem_append.mp hx with hx1 | hx2
    · exact hgd x hx1
    · exact normalRel_good p hp x hx2
  have hfix := NodePath.normalizeChars_eq_self (d.data ++ '/' :: p.data) _ hsplit
    (by simp) hgood
  show (⟨NodePath.normalizeChars (d.data ++ '/' :: p.data)⟩ : String) = d ++ "/" ++ p
  rw [hfix]
  apply String.ext
  show d.data ++ '/' :: p.data = ((d ++ "/") ++ p).data
  rw [String.data_append, String.data_append]
  show d.data ++ '/' :: p.data = (d.data ++ ['/']) ++ p.data
  simp

theorem join_three (d p q : String) (hd : normalAbs d = true)
    (hp : normalRel p = true) (hq : normalRel q = true) :
    NodePath.join [d, p, q] = d ++ "/" ++ p ++ "/" ++ q := by
  obtain ⟨s, rest, hsp, hgd⟩ := normalAbs_shape d hd
  have hdne : d ≠ "" := normalAbs_ne_empty d hd
  have hpne : p ≠ "" := normalRel_ne_empty p hp
  have hqne : q ≠ "" := normalRel_ne_empty q hq
  have hfil : [d, p, q].filter (fun s => s ≠ "") = [d, p, q] := by
    simp [List.filter, hdne, hpne, hqne]
  unfold NodePath.join
  rw [hfil]
  show NodePath.normalize ⟨d.data ++ '/' :: (p.data ++ '/' :: q.data)⟩ =
    d ++ "/" ++ p ++ "/" ++ q
  have hsplit : NodePath.splitSlash (d.data ++ '/' :: (p.data ++ '/' :: q.data)) =
      [] :: ((s :: rest) ++ (NodePath.splitSlash p.data ++ NodePath.splitSlash q.data)) := by
    rw [NodePath.splitSlash_append, NodePath.splitSlash_append, hsp, List.cons_append]
  have hgood : ∀ x ∈ (s :: rest) ++ (NodePath.splitSlash p.data ++ NodePath.splitSlash q.data),
      goodSeg x = true := by
    intro x hx
    rcases List.mem_append.mp hx with hx1 | hx2
    · exact hgd x hx1
    · rcases List.mem_append.mp hx2 with hx3 | hx4
      · exact normalRel_good p hp x hx3
      · exact normalRel_good q hq x hx4
  have hfix := NodePath.normalizeChars_eq_self (d.data ++ '/' :: (p.data ++ '/' :: q.data)) _
    hsplit (by simp) hgood
  show (⟨NodePath.normalizeChars (d.data ++ '/' :: (p.data ++ '/' :: q.data))⟩ : String) =
    d ++ "/" ++ p ++ "/" ++ q
  rw [hfix]
  apply String.ext
  show d.data ++ '/' :: (p.data ++ '/' :: q.data) = ((((d ++ "/") ++ p) ++ "/") ++ q).data
  rw [String.data_append, String.data_append, String.data_append, String.data_append]
  show d.data ++ '/' :: (p.data ++ '/' :: q.data) = (((d.data ++ ['/']) ++ p.data) ++ ['/']) ++ q.data
  simp

theorem strip_eq_self_of_normalRel (p : String) (hp : normalRel p = true) :
    stripLeadingSlashes p = p := by
  cases hd : p.data with
  | nil =>
    have hp0 : p = "" := String.ext (by rw [hd])
    rw [hp0] at hp
    exact absurd hp (by decide)
  | cons c cs =>
    by_cases hc : c = '/'
    · exfalso
      subst hc
      have h1 : NodePath.splitSlash p.data = [] :: NodePath.splitSlash cs := by
        rw [hd]
        exact NodePath.splitSlash_cons_slash cs
      have h2 := normalRel_good p hp [] (by rw [h1]; exact List.mem_cons_self _ _)
      exact absurd h2 (by decide)
    · unfold stripLeadingSlashes
      rw [hd, List.dropWhile_cons, if_neg (by simpa using hc)]
      exact String.ext (by rw [hd])

theorem append_slash_lit (x : String) : x ++ "/" ++ "index.html" = x ++ "/index.html" := by
  apply String.ext
  rw [String.data_append, String.data_append, String.data_append, List.append_assoc]
  rfl

theorem resolveCore_branches (d P : String) (hs : stripLeadingSlashes P = P) :
    resolveCore d P =
      if P = "" then NodePath.join [d, "index.html"]
      else if NodePath.extname P = "" then NodePath.join [d, P, "index.html"]
      else NodePath.join [d, P] := by
  simp only [resolveCore, hs]

theorem isPrefixOf_of_append_isPrefixOf (l1 l2 l : List Char)
    (h : (l1 ++ l2).isPrefixOf l = true) : l1.isPrefixOf l = true := by
  induction l1 generalizing l with
  | nil => cases l <;> rfl
  | cons a as ih =>
    cases l with
    | nil => simp [List.isPrefixOf] at h
    | cons b bs =>
      rw [List.cons_append] at h
      simp only [List.isPrefixOf, Bool.and_eq_true] at h ⊢
      exact ⟨h.1, ih bs h.2⟩

/-- C1 (code bug): the resolver neither rejects nor contains `..` traversal.
For the request `app://./..%2Fsecret.txt` the WHATWG parser keeps the encoded
segment (pathname `/..%2Fsecret.txt`), `decodeURIComponent` turns it into
`/../secret.txt`, and `path.join` normalizes the resolved path to
`/app/secret.txt`, outside the distribution root `/app/dist`; the callback is
invoked with that escaping path. -/
theorem c1_traversal_escape :
    decodeURIComponent "/..%2Fsecret.txt" = some "/../secret.txt"
    ∧ appProtocolResolve "/app/dist"
        ⟨"app:", ".", "/..%2Fsecret.txt", "", ""⟩ = some "/app/secret.txt"
    ∧ withinRoot "/app/dist" "/app/secret.txt" = false := by decide

/-- C2 (counterexample): the handler checks the string of the URL for the
prefix `"http"`, not its scheme, so the URL `httpevil://x` — whose scheme is
neither `http` nor `https` — is forwarded to `shell.openExternal`. -/
theorem c2_counterexample :
    (windowOpenHandler "httpevil://x").externalOpens = ["httpevil://x"]
    ∧ (windowOpenHandler "httpevil://x").action = WindowOpenAction.deny
    ∧ isHttpOrHttpsUrl "httpevil://x" = false := by decide

/-- C2 (amended): the window-open handler always denies in-app window
creation; it forwards the URL to the operating system exactly once if and
only if the URL string starts with `"http"` — in particular every `http://`
and `https://` URL is forwarded exactly once — and a URL not starting with
`"http"` is never forwarded. -/
theorem c2_amended (url : String) :
    (windowOpenHandler url).action = WindowOpenAction.deny
    ∧ ((windowOpenHandler url).externalOpens = [url] ↔ jsStartsWith url "http" = true)
    ∧ (isHttpOrHttpsUrl url = true → (windowOpenHandler url).externalOpens = [url])
    ∧ (jsStartsWith url "http" = false → (windowOpenHandler url).externalOpens = []) := by
  refine ⟨rfl, ?_, ?_, ?_⟩
  · unfold windowOpenHandler
    by_cases h : jsStartsWith url "http" = true
    · simp [h]
    · simp [h]
  · intro h
    have hpre : jsStartsWith url "http" = true := by
      have hor : jsStartsWith url "http://" = true ∨ jsStartsWith url "https://" = true := by
        simpa [isHttpOrHttpsUrl] using h
      unfold jsStartsWith at hor ⊢
      rcases hor with h1 | h1
      · have h2 : ("http".data ++ "://".data).isPrefixOf url.data = true := h1
        exact isPrefixOf_of_append_isPrefixOf _ _ _ h2
      · have h2 : ("http".data ++ "s://".data).isPrefixOf url.data = true := h1
        exact isPrefixOf_of_append_isPrefixOf _ _ _ h2
    unfold windowOpenHandler
    simp [hpre]
  · intro h
    unfold windowOpenHandler
    simp [h]

/-- C2 (witness): at the concrete URL `https://example.com` the handler
denies the window and forwards the URL exactly once. -/
theorem c2_amended_witness :
    (windowOpenHandler "https://example.com").action = WindowOpenAction.deny
    ∧ (windowOpenHandler "https://example.com").externalOpens = ["https://example.com"] :=
  ⟨(c2_amended "https://example.com").1,
    (c2_amended "https://example.com").2.2.1 (by decide)⟩

/-- C3 (counterexample): `P = "../guide"` is non-empty, already stripped and
has no extension, yet `path.join` normalizes the `..` away, so the output is
`/app/guide/index.html` and not `<distRoot>/P/index.html` verbatim. -/
theorem c3_counterexample :
    NodePath.extname "../guide" = ""
    ∧ "../guide" ≠ ""
    ∧ stripLeadingSlashes "../guide" = "../guide"
    ∧ resolveCore "/app/dist" "../guide" ≠ "/app/dist" ++ "/" ++ "../guide" ++ "/index.html"
    ∧ resolveCore "/app/dist" "../guide" = "/app/guide/index.html" := by decide

/-- C3 (amended): for every decoded, stripped request path `P` with no file
extension whose slash-separated segments are plain (nonempty, not `.` and not
`..`), and any normalized absolute `distRoot`, the resolver output is exactly
`<distRoot>/P/index.html`; for other `P` the output is the Node-normalized
join instead. -/
theorem c3_amended (d P : String) (hd : normalAbs d = true) (hP : normalRel P = true)
    (hext : NodePath.extname P = "") :
    resolveCore d P = d ++ "/" ++ P ++ "/index.html" := by
  have hs := strip_eq_self_of_normalRel P hP
  have hne : P ≠ "" := normalRel_ne_empty P hP
  rw [resolveCore_branches d P hs, if_neg hne, if_pos hext,
    join_three d P "index.html" hd hP (by decide)]
  exact append_slash_lit (d ++ "/" ++ P)

/-- C3 (witness): the route `docs/guide` resolves to
`/app/dist/docs/guide/index.html`. -/
theorem c3_amended_witness :
    resolveCore "/app/dist" "docs/guide" = "/app/dist" ++ "/" ++ "docs/guide" ++ "/index.html" :=
  c3_amended "/app/dist" "docs/guide" (by decide) (by decide) (by decide)

/-- C4 (confirmed): for a request whose path component is empty after
percent-decoding and stripping leading slashes, the resolver invokes its
callback with `<distRoot>/index.html`; `distRoot`, being `path.join` of the
module directory with `../dist`, is a normalized absolute path
(`normalAbs`). -/
theorem c4_empty_path (d : String) (u : URLRecord) (dec : String)
    (hd : normalAbs d = true)
    (hdec : decodeURIComponent u.pathname = some dec)
    (hstrip : stripLeadingSlashes dec = "") :
    appProtocolResolve d u = some (d ++ "/index.html") := by
  unfold appProtocolResolve
  rw [hdec]
  show some (resolveCore d dec) = some (d ++ "/index.html")
  congr 1
  simp only [resolveCore, hstrip, if_pos]
  rw [join_two d "index.html" hd (by decide)]
  exact append_slash_lit d

/-- C4 (witness): the request `app://./` (pathname `/`) resolves to
`/app/dist/index.html`. -/
theorem c4_empty_path_witness :
    appProtocolResolve "/app/dist" ⟨"app:", ".", "/", "", ""⟩ =
      some ("/app/dist" ++ "/index.html") :=
  c4_empty_path "/app/dist" ⟨"app:", ".", "/", "", ""⟩ "/" (by decide) (by decide) (by decide)

/-- C5 (counterexample): `P = "a/../b.txt"` has the extension `.txt`, yet
`path.join` normalizes the `..` away, so the output is `/app/dist/b.txt` and
not `<distRoot>/P` verbatim. -/
theorem c5_counterexample :
    NodePath.extname "a/../b.txt" = ".txt"
    ∧ stripLeadingSlashes "a/../b.txt" = "a/../b.txt"
    ∧ resolveCore "/app/dist" "a/../b.txt" ≠ "/app/dist" ++ "/" ++ "a/../b.txt"
    ∧ resolveCore "/app/dist" "a/../b.txt" = "/app/dist/b.txt" := by decide

/-- C5 (amended): for every decoded, stripped request path `P` with a file
extension whose slash-separated segments are plain (nonempty, not `.` and not
`..`), and any normalized absolute `distRoot`, the resolver output is exactly
`<distRoot>/P`; for other `P` the output is the Node-normalized join
instead. -/
theorem c5_amended (d P : String) (hd : normalAbs d = true) (hP : normalRel P = true)
    (hext : NodePath.extname P ≠ "") :
    resolveCore d P = d ++ "/" ++ P := by
  have hs := strip_eq_self_of_normalRel P hP
  have hne : P ≠ "" := normalRel_ne_empty P hP
  rw [resolveCore_branches d P hs, if_neg hne, if_neg hext]
  exact join_two d P hd hP

/-- C5 (witness): the asset path `assets/logo.png` resolves to
`/app/dist/assets/logo.png`. -/
theorem c5_amended_witness :
    resolveCore "/app/dist" "assets/logo.png" = "/app/dist" ++ "/" ++ "assets/logo.png" :=
  c5_amended "/app/dist" "assets/logo.png" (by decide) (by decide) (by decide)

/-- C6 (counterexample): in development mode (`isDev = true`, so
`app.isPackaged`, i.e. `!isDev`, is `false`) the scheme registration event
still occurs, because `registerSchemesAsPrivileged` runs unconditionally at
module evaluation; so "the custom protocol scheme ... is registered if and
only if the application is running packaged" fails at `isDev = true`. -/
theorem c6_counterexample :
    ¬ ((MainEvent.registerSchemes "app" appSchemePrivileges ∈ startupEvents true none) ↔
      ((!true) = true)) := by decide

/-- C6 (amended): the resolver (`registerFileProtocol` for `app`) is
registered if and only if the application runs packaged, and before any
window is created; the scheme privileges, however, are registered
unconditionally at module evaluation — before the process-ready signal and
before any window — in both modes. -/
theorem c6_amended (env : Option String) :
    MainEvent.registerResolver "app" ∈ startupEvents false env
    ∧ MainEvent.registerResolver "app" ∉ startupEvents true env
    ∧ MainEvent.registerSchemes "app" appSchemePrivileges ∈ startupEvents true env
    ∧ MainEvent.registerSchemes "app" appSchemePrivileges ∈ startupEvents false env
    ∧ OccursBefore (startupEvents false env) (MainEvent.registerResolver "app")
        MainEvent.createWindow
    ∧ OccursBefore (startupEvents false env)
        (MainEvent.registerSchemes "app" appSchemePrivileges) MainEvent.ready
    ∧ OccursBefore (startupEvents false env)
        (MainEvent.registerSchemes "app" appSchemePrivileges) MainEvent.createWindow
    ∧ OccursBefore (startupEvents true env)
        (MainEvent.registerSchemes "app" appSchemePrivileges) MainEvent.createWindow := by
  refine ⟨?_, ?_, ?_, ?_, ?_, ?_, ?_, ?_⟩
  · simp [startupEvents, createWindowEvents]
  · simp [startupEvents, createWindowEvents]
  · simp [startupEvents, createWindowEvents]
  · simp [startupEvents, createWindowEvents]
  · exact ⟨[MainEvent.registerSchemes "app" appSchemePrivileges, MainEvent.ready,
      MainEvent.registerResolver "app"],
      [MainEvent.createWindow, MainEvent.loadURL "app://./index.html"],
      rfl, by simp, by simp, by simp, by simp⟩
  · exact ⟨[MainEvent.registerSchemes "app" appSchemePrivileges],
      [MainEvent.ready, MainEvent.registerResolver "app",
        MainEvent.createWindow, MainEvent.loadURL "app://./index.html"],
      rfl, by simp, by simp, by simp, by simp⟩
  · exact ⟨[MainEvent.registerSchemes "app" appSchemePrivileges, MainEvent.ready,
      MainEvent.registerResolver "app"],
      [MainEvent.createWindow, MainEvent.loadURL "app://./index.html"],
      rfl, by simp, by simp, by simp, by simp⟩
  · exact ⟨[MainEvent.registerSchemes "app" appSchemePrivileges, MainEvent.ready],
      [MainEvent.createWindow, MainEvent.loadURL (env.getD "http://localhost:3000"),
        MainEvent.openDevTools "detach"],
      rfl, by simp, by simp, by simp, by simp⟩

/-- C7 (confirmed): in development mode the window loads the environment
override (falling back to `http://localhost:3000` when it is unset) and opens
detached devtools; in packaged mode it loads `app://./index.html` — the root
document of the custom protocol — and opens no devtools. -/
theorem c7_content_source (env : Option String) :
    MainEvent.loadURL (env.getD "http://localhost:3000") ∈ startupEvents true env
    ∧ MainEvent.openDevTools "detach" ∈ startupEvents true env
    ∧ MainEvent.loadURL "http://localhost:3000" ∈ startupEvents true none
    ∧ MainEvent.loadURL "app://./index.html" ∈ startupEvents false env
    ∧ (∀ m, MainEvent.openDevTools m ∉ startupEvents false env) := by
  refine ⟨?_, ?_, ?_, ?_, ?_⟩
  · simp [startupEvents, createWindowEvents]
  · simp [startupEvents, createWindowEvents]
  · simp [startupEvents, createWindowEvents]
  · simp [startupEvents, createWindowEvents]
  · intro m
    simp [startupEvents, createWindowEvents]

/-- C8 (confirmed): every renderer context receives exactly one exposed
global, named `datapackHelper`, whose value is exactly the one-field object
`{ isElectron: true }` — no other field, no function, no further state. -/
theorem c8_preload_exposure (ctx : Nat) :
    rendererGlobals ctx = [("datapackHelper", [("isElectron", BridgeValue.boolVal true)])] := rfl

/-- C9 (counterexample): for the request with pathname `/a%` (a valid URL
path, since the WHATWG parser keeps a stray `%` verbatim),
`decodeURIComponent` throws `URIError`, so the resolver errors and the
callback is never invoked — contradicting "never throws and always invokes
its callback with a path string". -/
theorem c9_counterexample :
    appProtocolResolve "/app/dist" ⟨"app:", ".", "/a%", "", ""⟩ = none
    ∧ decodeURIComponent "/a%" = none := by decide

/-- C9 (amended): the resolver invokes its callback with a path string
exactly when `decodeURIComponent` succeeds on the request's pathname; on a
malformed percent-encoding it throws `URIError` instead and the callback is
never invoked.  No file-existence check is involved in either case. -/
theorem c9_amended (d : String) (u : URLRecord) :
    (appProtocolResolve d u).isSome = (decodeURIComponent u.pathname).isSome := by
  unfold appProtocolResolve
  cases decodeURIComponent u.pathname <;> rfl

/-- C10 (confirmed): the resolver output depends only on the request URL's
pathname: two requests with equal pathname but arbitrary different protocol,
host, query string and fragment resolve to the same result. -/
theorem c10_pathname_only (d protocol1 host1 search1 hash1 protocol2 host2 search2 hash2
    p : String) :
    appProtocolResolve d ⟨protocol1, host1, p, search1, hash1⟩
      = appProtocolResolve d ⟨protocol2, host2, p, search2, hash2⟩ := rfl
